import Mathlib

/-!
Shallow embedding of `dlt/common/schema/utils.py` (schema evolution and
value-coercion engine) together with proofs about its specification.

Python strings are modelled as Lean `String` with character classes and
case mapping taken at their ASCII meaning (the identifiers the code
manipulates are ASCII), Python `dict`s as insertion-ordered association
lists, Python `int` as `Int`/`Nat`, and `float`/`Decimal` values as exact
rationals (every operation the code performs on them here is exact).
Fallible operations return `Option`/`Except`; functions that mutate their
argument in place are modelled by returning the post-state explicitly.
-/

namespace DltSchema

/-! ## String helpers (Python `str.rfind`, `str.find`, slicing) -/

/-- Index of the last occurrence of the (nonempty) pattern `pat` in `s`,
`none` standing for Python's `-1` result of `str.rfind`. -/
def rfindList (pat : List Char) : List Char → Option Nat
  | [] => none
  | c :: rest =>
    match rfindList pat rest with
    | some i => some (i + 1)
    | none => if pat.isPrefixOf (c :: rest) then some 0 else none

/-- Index of the first occurrence of the (nonempty) pattern `pat` in `s`,
`none` standing for Python's `-1` result of `str.find`. -/
def lfindList (pat : List Char) : List Char → Option Nat
  | [] => none
  | c :: rest =>
    if pat.isPrefixOf (c :: rest) then some 0
    else (lfindList pat rest).map (· + 1)

theorem rfindList_lt_length (pat s : List Char) (i : Nat)
    (h : rfindList pat s = some i) : i < s.length := by
  induction s generalizing i with
  | nil => simp [rfindList] at h
  | cons c rest ih =>
    rw [rfindList] at h
    cases hr : rfindList pat rest with
    | some j =>
      rw [hr] at h
      cases h
      have := ih j hr
      simp only [List.length_cons]
      omega
    | none =>
      rw [hr] at h
      by_cases hp : pat.isPrefixOf (c :: rest)
      · rw [if_pos hp] at h
        cases h
        simp
      · rw [if_neg hp] at h
        cases h

/-- Python `s.rfind(pat)` over `String`, with `none` for `-1`. -/
def pyRfind (s pat : String) : Option Nat :=
  rfindList pat.toList s.toList

/-- Python `s.find(pat)` over `String`, as an integer (`-1` when absent). -/
def pyFindIdx (s pat : String) : Int :=
  match lfindList pat.toList s.toList with
  | some i => (i : Int)
  | none => -1

/-- Python slice `s[:n]` for a nonnegative index. -/
def strTake (s : String) (n : Nat) : String :=
  ⟨s.toList.take n⟩

/-- Python slice `s[a:b]`, with Python's normalization of negative and
out-of-range indices. -/
def pySlice (s : String) (a b : Int) : String :=
  let n : Int := s.length
  let norm : Int → Nat := fun i => (if i < 0 then max 0 (i + n) else min i n).toNat
  ⟨(s.toList.take (norm b)).drop (norm a)⟩

/-- Presence test for a (nonempty) pattern inside a string. -/
def containsSub (s pat : String) : Bool :=
  (lfindList pat.toList s.toList).isSome

/-! ## ASCII character classes and lowercasing

The Python code classifies characters with the regular expression classes
`\d` and `[^a-zA-Z\d]` and lowercases with `str.lower`; we model both at
their ASCII meaning. -/

/-- Membership in the regex class `[a-zA-Z\d]` (ASCII letters and digits). -/
def ascii_alnum (c : Char) : Bool :=
  decide ((65 ≤ c.toNat ∧ c.toNat ≤ 90) ∨ (97 ≤ c.toNat ∧ c.toNat ≤ 122) ∨
    (48 ≤ c.toNat ∧ c.toNat ≤ 57))

/-- Membership in the regex class `\d` (ASCII decimal digits). -/
def ascii_digit (c : Char) : Bool :=
  decide (48 ≤ c.toNat ∧ c.toNat ≤ 57)

/-- Python `str.lower` on a single character, at its ASCII meaning. -/
def py_lower_char (c : Char) : Char :=
  if 65 ≤ c.toNat ∧ c.toNat ≤ 90 then Char.ofNat (c.toNat + 32) else c

theorem toNat_ofNat_valid (n : Nat) (h : n < 0xd800) : (Char.ofNat n).toNat = n := by
  rw [Char.ofNat, dif_pos (Or.inl h)]
  simp [Char.ofNatAux, Char.toNat, UInt32.toNat, BitVec.toNat_ofNatLt]

theorem py_lower_char_idem (c : Char) :
    py_lower_char (py_lower_char c) = py_lower_char c := by
  unfold py_lower_char
  by_cases h : 65 ≤ c.toNat ∧ c.toNat ≤ 90
  · rw [if_pos h]
    have h2 : (Char.ofNat (c.toNat + 32)).toNat = c.toNat + 32 :=
      toNat_ofNat_valid _ (by omega)
    rw [if_neg (by omega)]
  · rw [if_neg h, if_neg h]

theorem ascii_alnum_py_lower (c : Char) (h : ascii_alnum c = true) :
    ascii_alnum (py_lower_char c) = true := by
  unfold ascii_alnum py_lower_char at *
  by_cases hc : 65 ≤ c.toNat ∧ c.toNat ≤ 90
  · rw [if_pos hc]
    have h2 : (Char.ofNat (c.toNat + 32)).toNat = c.toNat + 32 :=
      toNat_ofNat_valid _ (by omega)
    simp only [decide_eq_true_eq] at *
    omega
  · rwa [if_neg hc]

/-! ## NameNormalizer (`normalize_schema_name`) -/

/-- Truthiness of `RE_LEADING_DIGITS.match(name)` for `RE_LEADING_DIGITS =
re.compile(r"^\d+")`: the string starts with a decimal digit. -/
def leading_digits_match (s : String) : Bool :=
  match s.toList with
  | [] => false
  | c :: _ => ascii_digit c

/-- Model of `normalize_schema_name`: prefix a leading-digit name with
`"s"`, strip every character outside `[a-zA-Z\d]`, and lowercase. -/
def normalize_schema_name (name : String) : String :=
  let cs := if leading_digits_match name then 's' :: name.toList else name.toList
  ⟨(cs.filter ascii_alnum).map py_lower_char⟩

theorem filter_map_fix (l : List Char)
    (h : ∀ c ∈ l, ascii_alnum c = true ∧ py_lower_char c = c) :
    (l.filter ascii_alnum).map py_lower_char = l := by
  induction l with
  | nil => rfl
  | cons c rest ih =>
    have hc := h c (by simp)
    rw [List.filter_cons, if_pos hc.1, List.map_cons, hc.2,
      ih (fun d hd => h d (by simp [hd]))]

/-! ## Columns, hint flags, `add_missing_hints`, and the per-column part
of `remove_defaults`

A column dictionary can carry the keys `name`, `data_type`, `nullable` and
the six boolean hint flags; `Option` encodes presence of a key. -/

structure Column where
  name : Option String
  data_type : Option String
  nullable : Option Bool
  partition : Option Bool
  cluster : Option Bool
  unique : Option Bool
  sort : Option Bool
  primary_key : Option Bool
  foreign_key : Option Bool
  deriving DecidableEq, Repr

/-- The six boolean hint flags (every boolean column hint other than
`nullable`). -/
inductive HintFlag where
  | partition | cluster | unique | sort | primary_key | foreign_key
  deriving DecidableEq, Repr

def getHint (c : Column) : HintFlag → Option Bool
  | .partition => c.partition
  | .cluster => c.cluster
  | .unique => c.unique
  | .sort => c.sort
  | .primary_key => c.primary_key
  | .foreign_key => c.foreign_key

def setHint (c : Column) : HintFlag → Option Bool → Column
  | .partition, v => { c with partition := v }
  | .cluster, v => { c with cluster := v }
  | .unique, v => { c with unique := v }
  | .sort, v => { c with sort := v }
  | .primary_key, v => { c with primary_key := v }
  | .foreign_key, v => { c with foreign_key := v }

/-- Model of `add_missing_hints`: `{**defaults, **column}` defaults each of
the six hint flags to `False` where absent, the column's own values taking
precedence. -/
def add_missing_hints (column : Column) : Column :=
  { column with
    partition := some (column.partition.getD false),
    cluster := some (column.cluster.getD false),
    unique := some (column.unique.getD false),
    sort := some (column.sort.getD false),
    primary_key := some (column.primary_key.getD false),
    foreign_key := some (column.foreign_key.getD false) }

/-- Key deletion rule of `remove_defaults` applied to one boolean-valued
key: the key is deleted exactly when its value is `False`. -/
def elide_default : Option Bool → Option Bool
  | some false => none
  | v => v

/-- Per-column body of `remove_defaults`: delete the `name` key (a
`KeyError`, i.e. `none`, if absent), then delete every key holding the
boolean `False` except `nullable`. Of the keys a column can carry, the
boolean-valued ones are `nullable` and the six hint flags, so the
`for h in list(c.keys())` loop elides exactly the six flags. -/
def clean_column (c : Column) : Option Column :=
  match c.name with
  | none => none
  | some _ => some
    { c with
      name := none,
      partition := elide_default c.partition,
      cluster := elide_default c.cluster,
      unique := elide_default c.unique,
      sort := elide_default c.sort,
      primary_key := elide_default c.primary_key,
      foreign_key := elide_default c.foreign_key }

/-! ## Python dictionaries as insertion-ordered association lists -/

/-- Python `m.get(k)` / `m[k]` lookup. -/
def dget {α : Type} (m : List (String × α)) (k : String) : Option α :=
  (m.find? (fun p => p.1 == k)).map (fun p => p.2)

/-- Python `m[k] = v`: replace the first binding of `k` in place, else
append a new binding at the end. -/
def dset {α : Type} (m : List (String × α)) (k : String) (v : α) :
    List (String × α) :=
  match m with
  | [] => [(k, v)]
  | p :: rest => if p.1 == k then (k, v) :: rest else p :: dset rest k v

/-! ## Tables -/

abbrev TableColumns := List (String × Column)

/-- Filter groups (`"includes"` / `"excludes"`) mapped to ordered pattern
sequences. -/
abbrev FilterGroups := List (String × List String)

/-- A table dictionary; `Option` encodes presence of each optional key. -/
structure Table where
  name : Option String
  columns : TableColumns
  parent : Option String
  write_disposition : Option String
  filters : Option FilterGroups
  description : Option String
  deriving DecidableEq, Repr

/-- Model of `new_table`. The `columns` parameter of the source is `None`
at every call site modelled here, so the columns mapping starts empty.
`if parent_name:` is Python truthiness: `None` and the empty string both
fall to the root-table branch, which sets `write_disposition = "append"`
and leaves `parent` unset. -/
def new_table (table_name : String) (parent_name : Option String) : Table :=
  if parent_name.getD "" ≠ "" then
    { name := some table_name, columns := [], parent := parent_name,
      write_disposition := none, filters := none, description := none }
  else
    { name := some table_name, columns := [], parent := none,
      write_disposition := some "append", filters := none, description := none }

/-- Per-table body of `remove_defaults`: delete the table's `name` key
(`KeyError`, i.e. `none`, when absent) and clean every column. -/
def clean_columns : TableColumns → Option TableColumns
  | [] => some []
  | (n, c) :: rest => do
    let c2 ← clean_column c
    let rest2 ← clean_columns rest
    pure ((n, c2) :: rest2)

def clean_table (t : Table) : Option Table :=
  match t.name with
  | none => none
  | some _ =>
    (clean_columns t.columns).map (fun cols => { t with name := none, columns := cols })

def clean_tables : List (String × Table) → Option (List (String × Table))
  | [] => some []
  | (n, t) :: rest => do
    let t2 ← clean_table t
    let rest2 ← clean_tables rest
    pure ((n, t2) :: rest2)

/-! ## The legacy parent-name search of the 2 -> 3 migration -/

/-- The separator encoding table ancestry in legacy names. -/
def sepChars : List Char := ['_', '_']

/-- One-step-at-a-time model of the `while True` loop of
`upgrade_engine_version`: find the last `__` of the current candidate; if it
sits at a non-leading index, truncate there and stop as soon as the
truncation names an existing table, else keep shortening; if the last `__`
is absent or leading, the table is a root. The fuel argument (instantiated
with the name's length, a strict bound on the number of truncations) makes
the recursion structural. -/
def parent_search_aux (names : List String) : Nat → String → Option String
  | 0, _ => none
  | fuel + 1, parent =>
    match rfindList sepChars parent.toList with
    | some idx =>
      if 0 < idx then
        let p := strTake parent idx
        if names.contains p then some p else parent_search_aux names fuel p
      else none
    | none => none

def parent_search (names : List String) (name : String) : Option String :=
  parent_search_aux names name.length name

/-- The successive truncations of a legacy name at its last non-leading
`__`, in the order the migration loop visits them (longest first), written
independently of any membership test. -/
def truncation_chain_aux : Nat → String → List String
  | 0, _ => []
  | fuel + 1, s =>
    match rfindList sepChars s.toList with
    | some idx =>
      if 0 < idx then strTake s idx :: truncation_chain_aux fuel (strTake s idx)
      else []
    | none => []

def truncation_chain (s : String) : List String :=
  truncation_chain_aux s.length s

/-! ## Filter migration of the 2 -> 3 migration (`migrate_filters`) -/

/-- Append a pattern to `t.setdefault("filters", {}).setdefault(group, [])`. -/
def append_group_filter (t : Table) (group : String) (pattern : String) : Table :=
  let fs := t.filters.getD []
  let seq := (dget fs group).getD []
  { t with filters := some (dset fs group (seq ++ [pattern])) }

/-- Body of the `for f in filters` loop of `migrate_filters`: split the
pattern after its leading `^` at the first `__` into the owning root table
name and the remaining path, synthesize an empty root table when absent,
and append `"^" + path` to that table's `filters[group]`. -/
def process_filter (tables : List (String × Table)) (group : String)
    (f : String) : List (String × Table) :=
  let idx := pyFindIdx f "__"
  let root := pySlice f 1 idx
  let path := pySlice f (idx + 2) (f.length : Int)
  let t := (dget tables root).getD (new_table root none)
  dset tables root (append_group_filter t group ("^" ++ path))

def migrate_filters (tables : List (String × Table)) (group : String)
    (filters : List String) : List (String × Table) :=
  filters.foldl (fun ts f => process_filter ts group f) tables

/-! ## Stored schema documents and `upgrade_engine_version` -/

/-- The fixed default `normalizers` configuration installed by the 2 -> 3
migration. -/
structure RootPropagationCfg where
  root : List (String × String)
  deriving DecidableEq, Repr

structure JsonNormalizerConfig where
  propagation : RootPropagationCfg
  deriving DecidableEq, Repr

structure JsonNormalizerCfg where
  module : String
  config : JsonNormalizerConfig
  deriving DecidableEq, Repr

structure NormalizersCfg where
  names : String
  json : JsonNormalizerCfg
  deriving DecidableEq, Repr

def default_normalizers : NormalizersCfg :=
  { names := "dlt.common.normalizers.names.snake_case",
    json := { module := "dlt.common.normalizers.json.relational",
              config := { propagation := { root := [("_record_hash", "_root_hash")] } } } }

abbrev HintsMap := List (String × List String)
abbrev PreferredTypesMap := List (String × String)

structure Settings where
  default_hints : HintsMap
  preferred_types : PreferredTypesMap
  deriving DecidableEq, Repr

/-- The `tables` entry of a document: a legacy (engine <= 2) flat mapping
from table name to a raw column mapping, or the current (engine 3) mapping
from table name to a table dictionary. -/
inductive TablesVal where
  | legacy (tables : List (String × TableColumns))
  | current (tables : List (String × Table))
  deriving DecidableEq, Repr

/-- A schema document. `name`, `engine_version` and `tables` are the keys
every stored document carries; the remaining keys are optional and
`Option` encodes their presence. -/
structure Doc where
  name : String
  engine_version : Int
  tables : TablesVal
  hints : Option HintsMap
  preferred_types : Option PreferredTypesMap
  includes : Option (List String)
  excludes : Option (List String)
  normalizers : Option NormalizersCfg
  settings : Option Settings
  deriving DecidableEq, Repr

/-- Model of `remove_defaults`. The source deep-copies
`stored_schema["tables"]`, cleans the copy, installs the cleaned copy into
the passed document (`stored_schema["tables"] = clean_tables`) and returns
`None`; the value returned here is the post-state of the passed document.
A missing `name` key raises `KeyError` (the `none` result), in which case
the document is left as passed (the copy is discarded). A legacy-shaped
`tables` value is outside the model. -/
def remove_defaults (stored_schema : Doc) : Option Doc :=
  match stored_schema.tables with
  | .legacy _ => none
  | .current ts =>
    (clean_tables ts).map (fun ts2 => { stored_schema with tables := .current ts2 })

/-- The error raised as `SchemaEngineNoUpgradePathException(schema_dict["name"],
schema_dict["engine_version"], from_engine, to_engine)`, with the arguments
taken at raise time. -/
structure NoUpgradePathErr where
  schema_name : String
  init_engine : Int
  from_engine : Int
  to_engine : Int
  deriving DecidableEq, Repr

/-- Outcome of a call to `upgrade_engine_version`: the post-state of the
mutated document, the final value of the `from_engine` chain variable, and
the raised exception when the chain missed the target. -/
structure UpgradeResult where
  doc : Doc
  reached : Int
  err : Option NoUpgradePathErr
  deriving DecidableEq, Repr

/-- The 1 -> 2 migration step: set `engine_version = 2` and add empty
`includes` and `excludes` sequences. -/
def step_1_to_2 (d : Doc) : Doc :=
  { d with engine_version := 2, includes := some [], excludes := some [] }

def repackage_tables (old_tables : List (String × TableColumns)) :
    List (String × Table) :=
  old_tables.map (fun p =>
    (p.1, { new_table p.1 (parent_search (old_tables.map Prod.fst) p.1) with
      columns := p.2 }))

/-- The 2 -> 3 migration step: install the default normalizers, move
`hints`/`preferred_types` into `settings` (popping with `{}` defaults),
repackage the legacy tables deriving each parent by `parent_search`, pop
and reassign `excludes` then `includes` filters, and set
`engine_version = 3`. A non-legacy `tables` value is outside the model
(`none`). -/
def step_2_to_3 (d : Doc) : Option Doc :=
  match d.tables with
  | .current _ => none
  | .legacy old_tables =>
    let t1 := repackage_tables old_tables
    let t2 := migrate_filters t1 "excludes" (d.excludes.getD [])
    let t3 := migrate_filters t2 "includes" (d.includes.getD [])
    some { d with
      engine_version := 3,
      normalizers := some default_normalizers,
      settings := some { default_hints := d.hints.getD [],
                         preferred_types := d.preferred_types.getD [] },
      hints := none,
      preferred_types := none,
      tables := .current t3,
      excludes := none,
      includes := none }

/-- Model of `upgrade_engine_version`. Equal versions short-circuit;
otherwise the 1 -> 2 and 2 -> 3 steps run under their guards, version 3 is
a no-op, and a final-version mismatch raises
`SchemaEngineNoUpgradePathException` built from the post-migration
document. -/
def upgrade_engine_version (schema_dict : Doc) (from_engine to_engine : Int) :
    Option UpgradeResult :=
  if from_engine = to_engine then
    some { doc := schema_dict, reached := from_engine, err := none }
  else
    let s1 := if from_engine = 1 ∧ to_engine > 1
      then (step_1_to_2 schema_dict, (2 : Int))
      else (schema_dict, from_engine)
    let s2 := if s1.2 = 2 ∧ to_engine > 2
      then (step_2_to_3 s1.1).map (fun d => (d, (3 : Int)))
      else some s1
    s2.map (fun p =>
      { doc := p.1, reached := p.2,
        err := if p.2 ≠ to_engine then
            some { schema_name := p.1.name, init_engine := p.1.engine_version,
                   from_engine := p.2, to_engine := to_engine }
          else none })

/-! ## TypeCoercionEngine (`coerce_type`)

Runtime values: Python `int` as `Int`, `float` and `Decimal` as exact
rationals (each operation `coerce_type` performs on them here is exact),
`str` as `String`, `bytes` as byte lists, `bool`, and an opaque
complex-structure constructor. External collaborators (JSON codec, text
parsers, base64, epoch rendering) are imported by the source module and
enter the model as explicit function parameters. -/

inductive DataType where
  | text | bigint | double | bool | binary | complex | decimal | timestamp | wei
  deriving DecidableEq, Repr

inductive PyVal where
  | int (n : Int)
  | float (q : ℚ)
  | decimal (q : ℚ)
  | str (s : String)
  | bytes (bs : List Nat)
  | boolean (b : Bool)
  | structure_ (tag : Nat)
  deriving DecidableEq, Repr

/-- Failure of a coercion: `ValueError` (payload not modelled) from explicit
raises and failing collaborator parses, or a Python-level type error when a
value does not support the operation the branch applies to it. -/
inductive PyErr where
  | valueError
  | typeError
  deriving DecidableEq, Repr

/-- Numeric reading of a value, for the branches applying arithmetic. -/
def as_rat : PyVal → Option ℚ
  | .int n => some (n : ℚ)
  | .float q => some q
  | .decimal q => some q
  | _ => none

/-- Little-endian minimal-byte-length encoding
`value.to_bytes((value.bit_length() + 7) // 8, 'little')` of a nonnegative
integer. -/
def int_le_bytes (n : Nat) : List Nat :=
  let bitlen := if n = 0 then 0 else Nat.log2 n + 1
  (List.range ((bitlen + 7) / 8)).map (fun i => n / 256 ^ i % 256)

/-- External collaborators of `coerce_type`, modelled as parameters: the
JSON codec, Python text conversions and numeric/ISO-8601 parsers (`none`
standing for the parse error the source maps to a raise), base64 and hex
byte decoding, and the epoch-to-ISO renderer. -/
structure Ext where
  json_dumps : PyVal → String
  str_of : PyVal → String
  parse_int : String → Option Int
  parse_float : String → Option ℚ
  parse_decimal : String → Option ℚ
  b64decode : String → Option (List Nat)
  from_hex : String → Option (List Nat)
  hex_int : String → Option Int
  iso_ok : String → Bool
  from_timestamp : ℚ → String

/-- Model of `coerce_type`. The source is a sequence of `if` blocks over
`to_type` whose guards are mutually exclusive; a block that matches
`to_type` but none of its `from_type` cases falls through to the final
`raise ValueError(value)`, so the blocks are rendered as one nested
conditional with that raise as the last alternative. -/
def coerce_type (ext : Ext) (to_type from_type : DataType) (value : PyVal) :
    Except PyErr PyVal :=
  if to_type = from_type then
    if to_type = .complex then .ok (.str (ext.json_dumps value))
    else .ok value
  else if to_type = .text then
    if from_type = .complex then .ok (.str (ext.json_dumps value))
    else .ok (.str (ext.str_of value))
  else if to_type = .binary then
    if from_type = .text then
      match value with
      | .str s =>
        if s.startsWith "0x" then
          match ext.from_hex (s.drop 2) with
          | some bs => .ok (.bytes bs)
          | none => .error .valueError
        else
          match ext.b64decode s with
          | some bs => .ok (.bytes bs)
          | none => .error .valueError
      | _ => .error .typeError
    else if from_type = .bigint then
      match value with
      | .int n => if n < 0 then .error .valueError else .ok (.bytes (int_le_bytes n.toNat))
      | _ => .error .typeError
    else .error .valueError
  else if to_type = .wei ∨ to_type = .bigint then
    if from_type = .bigint then .ok value
    else if from_type = .decimal ∨ from_type = .double then
      match as_rat value with
      | some q => if q.den ≠ 1 then .error .valueError else .ok (.int q.num)
      | none => .error .typeError
    else if from_type = .text then
      match value with
      | .str s =>
        let trim_value := s.trim
        if trim_value.startsWith "0x" then
          match ext.hex_int (trim_value.drop 2) with
          | some n => .ok (.int n)
          | none => .error .valueError
        else
          match ext.parse_int trim_value with
          | some n => .ok (.int n)
          | none => .error .valueError
      | _ => .error .typeError
    else .error .valueError
  else if to_type = .double then
    if from_type = .bigint ∨ from_type = .wei ∨ from_type = .decimal then
      match as_rat value with
      | some q => .ok (.float q)
      | none => .error .typeError
    else if from_type = .text then
      match value with
      | .str s =>
        let trim_value := s.trim
        if trim_value.startsWith "0x" then
          match ext.hex_int (trim_value.drop 2) with
          | some n => .ok (.float (n : ℚ))
          | none => .error .valueError
        else
          match ext.parse_float trim_value with
          | some q => .ok (.float q)
          | none => .error .valueError
      | _ => .error .typeError
    else .error .valueError
  else if to_type = .decimal then
    if from_type = .bigint ∨ from_type = .wei then .ok value
    else if from_type = .double then
      match as_rat value with
      | some q => .ok (.decimal q)
      | none => .error .typeError
    else if from_type = .text then
      match value with
      | .str s =>
        let trim_value := s.trim
        if trim_value.startsWith "0x" then
          match ext.hex_int (trim_value.drop 2) with
          | some n => .ok (.int n)
          | none => .error .valueError
        else if ¬ trim_value.contains '.' ∧ ¬ trim_value.contains 'e' then
          match ext.parse_int trim_value with
          | some n => .ok (.int n)
          | none => .error .valueError
        else
          match ext.parse_decimal trim_value with
          | some q => .ok (.decimal q)
          | none => .error .valueError
      | _ => .error .typeError
    else .error .valueError
  else if to_type = .timestamp then
    if from_type = .bigint ∨ from_type = .double then
      match as_rat value with
      | some q => .ok (.str (ext.from_timestamp q))
      | none => .error .typeError
    else if from_type = .text then
      match value with
      | .str s =>
        if ext.iso_ok s then .ok value
        else
          match ext.parse_int s with
          | some n => .ok (.str (ext.from_timestamp (n : ℚ)))
          | none =>
            match ext.parse_float s with
            | some q => .ok (.str (ext.from_timestamp q))
            | none => .error .valueError
      | _ => .error .typeError
    else .error .valueError
  else .error .valueError

/-- A concrete collaborator bundle, for evaluating `coerce_type` on
branches whose outcome does not depend on the collaborators. -/
def trivial_ext : Ext :=
  { json_dumps := fun _ => "",
    str_of := fun _ => "",
    parse_int := fun _ => none,
    parse_float := fun _ => none,
    parse_decimal := fun _ => none,
    b64decode := fun _ => none,
    from_hex := fun _ => none,
    hex_int := fun _ => none,
    iso_ok := fun _ => false,
    from_timestamp := fun _ => "" }

/-! ## Concrete fixture values used by witnesses and counterexamples -/

/-- A working-form column with every key present. -/
def colW : Column :=
  { name := some "c", data_type := some "text", nullable := some false,
    partition := some false, cluster := some true, unique := some true,
    sort := some false, primary_key := some false, foreign_key := some true }

/-- The stored form of `colW` under the `remove_defaults` rule. -/
def colWClean : Column :=
  { name := none, data_type := some "text", nullable := some false,
    partition := none, cluster := some true, unique := some true,
    sort := none, primary_key := none, foreign_key := some true }

/-- A working-form table holding `colW`. -/
def tabW : Table :=
  { name := some "t", columns := [("c", colW)], parent := none,
    write_disposition := some "append", filters := none, description := none }

/-- The stored form of `tabW` under the `remove_defaults` rule. -/
def tabWClean : Table :=
  { name := none, columns := [("c", colWClean)], parent := none,
    write_disposition := some "append", filters := none, description := none }

/-- A working-form (version 3) document with one table and one column. -/
def docW : Doc :=
  { name := "event", engine_version := 3,
    tables := .current [("t", tabW)],
    hints := none, preferred_types := none, includes := none, excludes := none,
    normalizers := some default_normalizers,
    settings := some { default_hints := [], preferred_types := [] } }

/-- The post-state of `docW` after `remove_defaults`. -/
def docWClean : Doc :=
  { docW with tables := .current [("t", tabWClean)] }

/-- A legacy (engine 2) document with the two tables of the specification's
parent-derivation example. -/
def docLegacy : Doc :=
  { name := "event", engine_version := 2,
    tables := .legacy [("orders", []), ("orders__items", [])],
    hints := none, preferred_types := none, includes := none, excludes := none,
    normalizers := none, settings := none }

/-! ## C6: idempotence of `normalize_schema_name` -/

/-- C6 counterexample: `normalize_schema_name` is not idempotent. On
`"-1"` the first pass strips the `"-"` and produces `"1"`, whose leading
digit only then triggers the `"s"` prefix on a second pass. -/
theorem normalize_schema_name_not_idem :
    normalize_schema_name (normalize_schema_name "-1") ≠ normalize_schema_name "-1" := by
  decide

/-- C6 (amended): `normalize_schema_name` is idempotent on every string
whose normalized form does not itself begin with a decimal digit (the
counterexample above shows the unrestricted claim fails exactly when the
first pass uncovers a leading digit). -/
theorem normalize_schema_name_idem (x : String)
    (h : leading_digits_match (normalize_schema_name x) = false) :
    normalize_schema_name (normalize_schema_name x) = normalize_schema_name x := by
  have hy : ∀ c ∈ (normalize_schema_name x).toList,
      ascii_alnum c = true ∧ py_lower_char c = c := by
    intro c hc
    unfold normalize_schema_name at hc
    obtain ⟨c0, hc0, rfl⟩ := List.mem_map.mp hc
    have hmem := List.mem_filter.mp hc0
    exact ⟨ascii_alnum_py_lower _ hmem.2, py_lower_char_idem c0⟩
  conv_lhs => rw [normalize_schema_name]
  rw [h]
  simp only [Bool.false_eq_true, if_false]
  rw [filter_map_fix _ hy]
  rfl

/-- C6 witness: the amended idempotence theorem applied at `"a1"`. -/
theorem normalize_schema_name_idem_witness :
    normalize_schema_name (normalize_schema_name "a1") = normalize_schema_name "a1" :=
  normalize_schema_name_idem "a1" (by decide)

/-! ## C7: the hint-elision rule of `remove_defaults` -/

/-- C7: cleaning a column for storage deletes each of the six boolean hint
flags exactly when its value is `False` (so `False` and absent collapse to
the same stored column), keeps a `True` flag, and keeps `nullable`
unconditionally whatever its value. -/
theorem clean_column_hint_rule (c c2 : Column) (hf : HintFlag)
    (h : clean_column c = some c2) :
    getHint c2 hf = elide_default (getHint c hf) ∧
    (getHint c hf = some true → getHint c2 hf = some true) ∧
    (getHint c hf = some false → getHint c2 hf = none) ∧
    clean_column (setHint c hf (some false)) = clean_column (setHint c hf none) ∧
    c2.nullable = c.nullable := by
  unfold clean_column at h
  cases hn : c.name with
  | none => rw [hn] at h; cases h
  | some nm =>
    rw [hn] at h
    cases h
    have hmain : ∀ g : HintFlag,
        getHint
          { c with
            name := none,
            partition := elide_default c.partition,
            cluster := elide_default c.cluster,
            unique := elide_default c.unique,
            sort := elide_default c.sort,
            primary_key := elide_default c.primary_key,
            foreign_key := elide_default c.foreign_key } g =
          elide_default (getHint c g) := by
      intro g; cases g <;> rfl
    refine ⟨hmain hf, ?_, ?_, ?_, rfl⟩
    · intro hx; rw [hmain hf, hx]; rfl
    · intro hx; rw [hmain hf, hx]; rfl
    · cases hf <;> simp [setHint, clean_column, elide_default, hn]

/-- C7 witness: the hint rule applied to a concrete column. -/
theorem clean_column_hint_rule_witness :
    getHint colWClean HintFlag.cluster = some true ∧ colWClean.nullable = some false := by
  have h := clean_column_hint_rule colW colWClean HintFlag.cluster (by decide)
  exact ⟨h.2.1 (by decide), h.2.2.2.2.trans (by decide)⟩

/-! ## C8: round trip working -> stored -> working -/

/-- C8 counterexample: expanding a full working column, collapsing it by
the `remove_defaults` rule and expanding again does not reproduce the
working column: `remove_defaults` also deletes the `name` key, which
`add_missing_hints` does not restore. -/
theorem expand_collapse_expand_not_id :
    (clean_column (add_missing_hints colW)).map add_missing_hints ≠ some colW := by
  decide

/-- C8 (amended): for a working column carrying `name`, `data_type`,
`nullable` and all six hint flags, expand-collapse-expand reproduces the
column except for `name`, which the collapse deletes (it is restored from
the mapping key by `apply_defaults`, not by the expansion); `nullable`
survives the collapse whatever its value. -/
theorem expand_collapse_expand_roundtrip (c : Column)
    (hn : c.name.isSome = true) (hd : c.data_type.isSome = true)
    (hnull : c.nullable.isSome = true)
    (hh : ∀ hf : HintFlag, (getHint c hf).isSome = true) :
    (clean_column (add_missing_hints c)).map add_missing_hints =
      some { c with name := none } := by
  obtain ⟨n0, d0, nb, p1, p2, p3, p4, p5, p6⟩ := c
  obtain ⟨nv, rfl⟩ := Option.isSome_iff_exists.mp hn
  obtain ⟨dv, rfl⟩ := Option.isSome_iff_exists.mp hd
  obtain ⟨bv, rfl⟩ := Option.isSome_iff_exists.mp hnull
  obtain ⟨b1, rfl⟩ := Option.isSome_iff_exists.mp (hh .partition)
  obtain ⟨b2, rfl⟩ := Option.isSome_iff_exists.mp (hh .cluster)
  obtain ⟨b3, rfl⟩ := Option.isSome_iff_exists.mp (hh .unique)
  obtain ⟨b4, rfl⟩ := Option.isSome_iff_exists.mp (hh .sort)
  obtain ⟨b5, rfl⟩ := Option.isSome_iff_exists.mp (hh .primary_key)
  obtain ⟨b6, rfl⟩ := Option.isSome_iff_exists.mp (hh .foreign_key)
  cases b1 <;> cases b2 <;> cases b3 <;> cases b4 <;> cases b5 <;> cases b6 <;> rfl

/-- C8 witness: the amended round trip applied to `colW`. -/
theorem expand_collapse_expand_roundtrip_witness :
    (clean_column (add_missing_hints colW)).map add_missing_hints =
      some { colW with name := none } :=
  expand_collapse_expand_roundtrip colW (by decide) (by decide) (by decide)
    (by intro hf; cases hf <;> decide)

/-! ## C5: coercion of `decimal` / `double` values to `bigint` / `wei` -/

/-- C5: coercing a `decimal` or `double` value `q` to `bigint` or `wei`
returns the integer equal to `q` when its fractional part is exactly zero
and raises `ValueError` otherwise, whatever the external collaborators. -/
theorem coerce_fractional_to_integer (ext : Ext) (to_t from_t : DataType)
    (v : PyVal) (q : ℚ)
    (hto : to_t = .bigint ∨ to_t = .wei)
    (hfrom : from_t = .decimal ∨ from_t = .double)
    (hv : as_rat v = some q) :
    (q.den = 1 → coerce_type ext to_t from_t v = .ok (.int q.num)) ∧
    (q.den ≠ 1 → coerce_type ext to_t from_t v = .error .valueError) := by
  rcases hto with rfl | rfl <;> rcases hfrom with rfl | rfl <;>
    constructor <;> intro hden <;> simp [coerce_type, hv, hden]

/-- C5 witness: `coerce("bigint", "double", 2.0) == 2` and
`coerce("bigint", "double", 2.5)` raises. -/
theorem coerce_fractional_to_integer_witness :
    coerce_type trivial_ext .bigint .double (.float 2) = .ok (.int 2) ∧
    coerce_type trivial_ext .bigint .double (.float (mkRat 5 2)) = .error .valueError := by
  constructor
  · have h := coerce_fractional_to_integer trivial_ext .bigint .double (.float 2) 2
      (Or.inl rfl) (Or.inr rfl) rfl
    have h2 := h.1 (by decide)
    rw [h2]
    rfl
  · have h := coerce_fractional_to_integer trivial_ext .bigint .double
      (.float (mkRat 5 2)) (mkRat 5 2) (Or.inl rfl) (Or.inr rfl) rfl
    exact h.2 (by decide)

/-! ## C1: what `remove_defaults` does to the passed document -/

theorem clean_tables_dget (ts ts2 : List (String × Table))
    (h : clean_tables ts = some ts2) (k : String) :
    dget ts2 k = (dget ts k).bind clean_table := by
  induction ts generalizing ts2 with
  | nil =>
    cases h
    rfl
  | cons p rest ih =>
    obtain ⟨n, t⟩ := p
    rw [clean_tables] at h
    cases hct : clean_table t with
    | none => rw [hct] at h; cases h
    | some t2 =>
      rw [hct] at h
      cases hrest : clean_tables rest with
      | none => rw [hrest] at h; cases h
      | some rest2 =>
        rw [hrest] at h
        cases h
        by_cases hk : (n == k) = true
        · simp [dget, List.find?_cons, hk, hct]
        · rw [Bool.not_eq_true] at hk
          simp only [dget, List.find?_cons, hk]
          simpa [dget] using ih rest2 hrest

/-- C1 counterexample: `remove_defaults` does mutate the document passed
in (the post-state differs from the input: the cleaned tables are
installed into it), and the Python function returns `None`rather than the
copy. -/
theorem remove_defaults_mutates_document :
    remove_defaults docW = some docWClean ∧ docWClean ≠ docW := by
  constructor
  · decide
  · decide

/-- C1 (amended): `remove_defaults` builds the cleaned tables from a deep,
independent copy of the tables (the original table objects are not touched
while cleaning), but then itself installs the cleaned copy into the passed
document's `tables` key — mutating that document — and returns `None`; the
caller does not replace `schema.tables`. Every other top-level key of the
document is left unchanged, and the installed tables are the pointwise
cleaning of the original ones. -/
theorem remove_defaults_replaces_tables (d d2 : Doc) (ts : List (String × Table))
    (hts : d.tables = .current ts) (h : remove_defaults d = some d2) :
    d2.name = d.name ∧ d2.engine_version = d.engine_version ∧
    d2.hints = d.hints ∧ d2.preferred_types = d.preferred_types ∧
    d2.includes = d.includes ∧ d2.excludes = d.excludes ∧
    d2.normalizers = d.normalizers ∧ d2.settings = d.settings ∧
    ∃ ts2, d2.tables = .current ts2 ∧ clean_tables ts = some ts2 ∧
      ∀ k, dget ts2 k = (dget ts k).bind clean_table := by
  have hrw : remove_defaults d = (clean_tables ts).map
      (fun ts2 => { d with tables := .current ts2 }) := by
    unfold remove_defaults
    rw [hts]
  rw [hrw] at h
  cases hct : clean_tables ts with
  | none => rw [hct] at h; cases h
  | some ts2 =>
    rw [hct] at h
    cases h
    exact ⟨rfl, rfl, rfl, rfl, rfl, rfl, rfl, rfl, ts2, rfl, rfl,
      clean_tables_dget ts ts2 hct⟩

/-- C1 witness: the amended theorem applied to `docW`. -/
theorem remove_defaults_replaces_tables_witness :
    docWClean.name = docW.name ∧ docWClean.tables = .current [("t", tabWClean)] := by
  have h := remove_defaults_replaces_tables docW docWClean [("t", tabW)]
    (by decide) (by decide)
  exact ⟨h.1, by decide⟩

/-! ## C10: downgrade requests fail without touching the document -/

/-- C10: for a downgrade request (`to_engine < from_engine`) no migration
step's guard fires, so `upgrade_engine_version` raises the
no-upgrade-path error built from the untouched document and leaves the
document completely unmodified. -/
theorem upgrade_downgrade_error (d : Doc) (f t : Int) (h : t < f) :
    upgrade_engine_version d f t = some
      { doc := d, reached := f,
        err := some { schema_name := d.name, init_engine := d.engine_version,
                      from_engine := f, to_engine := t } } := by
  have hne : ¬ (f = t) := by omega
  have h1 : ¬ (f = 1 ∧ t > 1) := by rintro ⟨rfl, ht⟩; omega
  have h2 : ¬ (f = 2 ∧ t > 2) := by rintro ⟨rfl, ht⟩; omega
  unfold upgrade_engine_version
  rw [if_neg hne]
  simp only [if_neg h1, if_neg h2, Option.map_some']
  rw [if_pos hne]

/-- C10 witness: a concrete 3 -> 2 downgrade. -/
theorem upgrade_downgrade_error_witness :
    upgrade_engine_version docW 3 2 = some
      { doc := docW, reached := 3,
        err := some { schema_name := "event", init_engine := 3,
                      from_engine := 3, to_engine := 2 } } :=
  upgrade_downgrade_error docW 3 2 (by norm_num)

/-! ## C3: shape of a full 1 -> 3 upgrade -/

/-- C3: upgrading any version-1 document (legacy-shaped tables) to version
3 succeeds and yields `engine_version == 3`, the non-empty fixed
`normalizers` block, a `settings` block carrying both `default_hints` and
`preferred_types`, and no top-level `hints`, `preferred_types`, `includes`
or `excludes` keys. -/
theorem upgrade_1_to_3_shape (d : Doc) (ts : List (String × TableColumns))
    (hts : d.tables = .legacy ts) :
    ∃ r, upgrade_engine_version d 1 3 = some r ∧ r.err = none ∧
      r.doc.engine_version = 3 ∧
      r.doc.normalizers = some default_normalizers ∧
      (∃ s, r.doc.settings = some s ∧ s.default_hints = d.hints.getD [] ∧
        s.preferred_types = d.preferred_types.getD []) ∧
      r.doc.hints = none ∧ r.doc.preferred_types = none ∧
      r.doc.includes = none ∧ r.doc.excludes = none := by
  unfold upgrade_engine_version
  rw [if_neg (show ¬ ((1:Int) = 3) by norm_num)]
  rw [if_pos (show (1:Int) = 1 ∧ (3:Int) > 1 by norm_num)]
  dsimp only
  rw [if_pos (show (2:Int) = 2 ∧ (3:Int) > 2 by norm_num)]
  unfold step_2_to_3 step_1_to_2
  dsimp only
  rw [hts]
  simp only [Option.map_some']
  rw [if_neg (show ¬ (((3:Int), (3:Int)).1 ≠ 3) by norm_num)]
  exact ⟨_, rfl, rfl, rfl, rfl, ⟨_, rfl, rfl, rfl⟩, rfl, rfl, rfl, rfl⟩

/-- C3 witness: the shape theorem applied to `docLegacy` at engine 1. -/
theorem upgrade_1_to_3_shape_witness :
    ∃ r, upgrade_engine_version docLegacy 1 3 = some r ∧ r.err = none ∧
      r.doc.engine_version = 3 := by
  obtain ⟨r, hr, he, hv, _⟩ := upgrade_1_to_3_shape docLegacy
    [("orders", []), ("orders__items", [])] (by decide)
  exact ⟨r, hr, he, hv⟩

/-! ## C9: a chain ending at the wrong version always raises -/

/-- C9: whenever `from_engine != to_engine` and the migration chain stops
at a version other than the requested target, `upgrade_engine_version`
raises the no-upgrade-path error carrying the schema name, the version
actually reached and the requested target; conversely a silent (no-error)
return implies the reached version equals the target. -/
theorem upgrade_wrong_end_raises (d : Doc) (f t : Int) (r : UpgradeResult)
    (hne : f ≠ t) (h : upgrade_engine_version d f t = some r) :
    (r.reached ≠ t → r.err = some
      { schema_name := r.doc.name, init_engine := r.doc.engine_version,
        from_engine := r.reached, to_engine := t }) ∧
    (r.err = none → r.reached = t) := by
  unfold upgrade_engine_version at h
  rw [if_neg hne] at h
  obtain ⟨p, hp, rfl⟩ := Option.map_eq_some'.mp h
  constructor
  · intro hr
    simp only [UpgradeResult.err]
    rw [if_pos hr]
  · intro he
    by_cases hc : p.2 = t
    · exact hc
    · simp only [UpgradeResult.err] at he
      rw [if_pos hc] at he
      cases he

/-- C9 witness: a 2 -> 5 request on a legacy document reaches version 3
and raises. -/
theorem upgrade_wrong_end_raises_witness :
    ∃ r, upgrade_engine_version docLegacy 2 5 = some r ∧ r.reached = 3 ∧
      r.err = some { schema_name := r.doc.name,
                     init_engine := r.doc.engine_version,
                     from_engine := r.reached, to_engine := 5 } := by
  cases hu : upgrade_engine_version docLegacy 2 5 with
  | none => exact absurd hu (by decide)
  | some r =>
    have h := upgrade_wrong_end_raises docLegacy 2 5 r (by norm_num) hu
    have hre : (upgrade_engine_version docLegacy 2 5).map UpgradeResult.reached =
        some 3 := by decide
    rw [hu] at hre
    simp only [Option.map_some', Option.some.injEq] at hre
    exact ⟨r, rfl, hre, h.1 (by rw [hre]; norm_num)⟩

/-! ## C2: the derived parent of a legacy table name -/

theorem strTake_length (s : String) (n : Nat) :
    (strTake s n).length = min n s.length :=
  List.length_take n s.data

theorem parent_search_aux_eq_find (names : List String) (fuel : Nat) (s : String)
    (h : s.length ≤ fuel) :
    parent_search_aux names fuel s =
      (truncation_chain_aux fuel s).find? (fun p => names.contains p) := by
  induction fuel generalizing s with
  | zero => rfl
  | succ n ih =>
    rw [parent_search_aux, truncation_chain_aux]
    cases hr : rfindList sepChars s.toList with
    | none => rfl
    | some idx =>
      dsimp only
      by_cases hpos : 0 < idx
      · rw [if_pos hpos, if_pos hpos, List.find?_cons]
        have hlt : idx < s.toList.length := rfindList_lt_length _ _ _ hr
        have hlt2 : idx < s.data.length := hlt
        have hlen : (strTake s idx).length ≤ n := by
          rw [strTake_length]
          simp only [String.length] at h ⊢
          omega
        by_cases hc : (names.contains (strTake s idx)) = true
        · rw [hc]
          rfl
        · rw [Bool.not_eq_true] at hc
          rw [hc, ih _ hlen]
          rfl
      · rw [if_neg hpos, if_neg hpos]
        rfl

/-- The loop of the 2 -> 3 migration returns the first (longest) successive
truncation of the name that names an existing table, and nothing when no
truncation does. -/
theorem parent_search_eq_find (names : List String) (s : String) :
    parent_search names s =
      (truncation_chain s).find? (fun p => names.contains p) :=
  parent_search_aux_eq_find names s.length s le_rfl

theorem truncation_chain_aux_ne_empty (fuel : Nat) (s p : String)
    (h : p ∈ truncation_chain_aux fuel s) : p ≠ "" := by
  induction fuel generalizing s with
  | zero => simp [truncation_chain_aux] at h
  | succ n ih =>
    rw [truncation_chain_aux] at h
    cases hr : rfindList sepChars s.toList with
    | none => rw [hr] at h; simp at h
    | some idx =>
      rw [hr] at h
      dsimp only at h
      by_cases hpos : 0 < idx
      · rw [if_pos hpos] at h
        have hlt : idx < s.toList.length := rfindList_lt_length _ _ _ hr
        rcases List.mem_cons.mp h with rfl | hmem
        · intro hcon
          have hlen := strTake_length s idx
          rw [hcon] at hlen
          have hlt2 : idx < s.data.length := hlt
          have hzero : ("" : String).length = 0 := rfl
          rw [hzero] at hlen
          simp only [String.length] at hlen
          omega
        · exact ih _ hmem
      · rw [if_neg hpos] at h
        simp at h

theorem parent_search_ne_empty (names : List String) (s p : String)
    (h : parent_search names s = some p) : p ≠ "" := by
  rw [parent_search_eq_find] at h
  exact truncation_chain_aux_ne_empty _ _ _ (List.mem_of_find?_eq_some h)

theorem new_table_parent_search (names : List String) (n : String) :
    (new_table n (parent_search names n)).parent = parent_search names n := by
  cases h : parent_search names n with
  | none => simp [new_table]
  | some p =>
    have hp := parent_search_ne_empty names n p h
    simp [new_table, hp]

theorem dget_map_keyed {α β : Type} (g : String → α → β)
    (m : List (String × α)) (k : String) :
    dget (m.map (fun p => (p.1, g p.1 p.2))) k = (dget m k).map (g k) := by
  induction m with
  | nil => rfl
  | cons p rest ih =>
    obtain ⟨n, v⟩ := p
    by_cases hk : (n == k) = true
    · have hnk : n = k := eq_of_beq hk
      subst hnk
      simp [dget, List.find?_cons, hk]
    · rw [Bool.not_eq_true] at hk
      simp only [List.map_cons, dget, List.find?_cons, hk]
      simpa [dget] using ih

theorem dget_dset_self {α : Type} (m : List (String × α)) (k : String) (v : α) :
    dget (dset m k v) k = some v := by
  induction m with
  | nil => simp [dget, dset, List.find?_cons]
  | cons p rest ih =>
    rw [dset]
    by_cases hk : (p.1 == k) = true
    · rw [if_pos hk]
      simp [dget, List.find?_cons]
    · rw [Bool.not_eq_true] at hk
      rw [if_neg (by simp [hk])]
      simp only [dget, List.find?_cons, hk]
      simpa [dget] using ih

theorem dget_dset_ne {α : Type} (m : List (String × α)) (k : String) (v : α)
    (k2 : String) (hne : k2 ≠ k) : dget (dset m k v) k2 = dget m k2 := by
  have hkk : (k == k2) = false := by
    simp [beq_eq_false_iff_ne]
    exact fun hc => hne hc.symm
  induction m with
  | nil => simp [dget, dset, List.find?_cons, hkk]
  | cons p rest ih =>
    rw [dset]
    by_cases hk : (p.1 == k) = true
    · rw [if_pos hk]
      have hp : p.1 = k := eq_of_beq hk
      simp only [dget, List.find?_cons, hkk, hp]
    · rw [Bool.not_eq_true] at hk
      rw [if_neg (by simp [hk])]
      by_cases h2 : (p.1 == k2) = true
      · simp only [dget, List.find?_cons, h2]
      · rw [Bool.not_eq_true] at h2
        simp only [dget, List.find?_cons, h2]
        simpa [dget] using ih

theorem process_filter_keeps (tables : List (String × Table)) (group f k : String)
    (t : Table) (h : dget tables k = some t) :
    ∃ t2, dget (process_filter tables group f) k = some t2 ∧
      t2.parent = t.parent ∧ t2.columns = t.columns := by
  have hpf : process_filter tables group f =
      dset tables (pySlice f 1 (pyFindIdx f "__"))
        (append_group_filter
          ((dget tables (pySlice f 1 (pyFindIdx f "__"))).getD
            (new_table (pySlice f 1 (pyFindIdx f "__")) none))
          group ("^" ++ pySlice f (pyFindIdx f "__" + 2) (f.length : Int))) := rfl
  by_cases hk : k = pySlice f 1 (pyFindIdx f "__")
  · subst hk
    refine ⟨append_group_filter t group
      ("^" ++ pySlice f (pyFindIdx f "__" + 2) (f.length : Int)), ?_, rfl, rfl⟩
    rw [hpf, dget_dset_self, h]
    rfl
  · refine ⟨t, ?_, rfl, rfl⟩
    rw [hpf, dget_dset_ne _ _ _ _ hk]
    exact h

theorem migrate_filters_keeps (group : String) (fs : List String)
    (tables : List (String × Table)) (k : String) (t : Table)
    (h : dget tables k = some t) :
    ∃ t2, dget (migrate_filters tables group fs) k = some t2 ∧
      t2.parent = t.parent ∧ t2.columns = t.columns := by
  induction fs generalizing tables t with
  | nil => exact ⟨t, h, rfl, rfl⟩
  | cons f rest ih =>
    obtain ⟨t1, h1, hp1, hc1⟩ := process_filter_keeps tables group f k t h
    obtain ⟨t2, h2, hp2, hc2⟩ := ih _ _ h1
    exact ⟨t2, h2, hp2.trans hp1, hc2.trans hc1⟩

/-- C2: during the 2 -> 3 migration of `upgrade_engine_version` every
legacy table is assigned as parent the longest strict prefix among the
successive truncations of its name at the last non-leading `__` that names
an existing legacy table, and no parent (root) when no truncation does;
its raw column mapping is attached as-is. -/
theorem upgrade_2_to_3_parent (d : Doc) (ts : List (String × TableColumns))
    (name : String) (cols : TableColumns)
    (hts : d.tables = .legacy ts) (hname : dget ts name = some cols) :
    ∃ r, upgrade_engine_version d 2 3 = some r ∧ r.err = none ∧
      ∃ ts3, r.doc.tables = .current ts3 ∧
        ∃ tab, dget ts3 name = some tab ∧
          tab.parent = (truncation_chain name).find?
            (fun p => ((ts.map Prod.fst).contains p)) ∧
          tab.columns = cols := by
  have hstep : step_2_to_3 d = some { d with
      engine_version := 3,
      normalizers := some default_normalizers,
      settings := some { default_hints := d.hints.getD [],
                         preferred_types := d.preferred_types.getD [] },
      hints := none,
      preferred_types := none,
      tables := .current (migrate_filters (migrate_filters (repackage_tables ts)
        "excludes" (d.excludes.getD [])) "includes" (d.includes.getD [])),
      excludes := none,
      includes := none } := by
    unfold step_2_to_3
    rw [hts]
  have h1 : dget (repackage_tables ts) name = some
      { new_table name (parent_search (ts.map Prod.fst) name) with columns := cols } := by
    have hmap := dget_map_keyed
      (fun n c => { new_table n (parent_search (ts.map Prod.fst) n) with columns := c })
      ts name
    rw [hname] at hmap
    exact hmap
  obtain ⟨t1, ht1, hp1, hc1⟩ :=
    migrate_filters_keeps "excludes" (d.excludes.getD []) _ name _ h1
  obtain ⟨t2, ht2, hp2, hc2⟩ :=
    migrate_filters_keeps "includes" (d.includes.getD []) _ name _ ht1
  unfold upgrade_engine_version
  rw [if_neg (show ¬ ((2:Int) = 3) by norm_num)]
  rw [if_neg (show ¬ ((2:Int) = 1 ∧ (3:Int) > 1) by norm_num)]
  dsimp only
  rw [if_pos (show (2:Int) = 2 ∧ (3:Int) > 2 by norm_num)]
  rw [hstep]
  simp only [Option.map_some']
  refine ⟨_, rfl, ?_, ?_⟩
  · simp
  · refine ⟨_, rfl, t2, ht2, ?_, hc2.trans hc1⟩
    rw [hp2, hp1]
    have hpar : ({ new_table name (parent_search (ts.map Prod.fst) name) with
        columns := cols } : Table).parent =
        (new_table name (parent_search (ts.map Prod.fst) name)).parent := rfl
    rw [hpar, new_table_parent_search, parent_search_eq_find]

/-- C2 witness: migrating the legacy tables `orders` and `orders__items`
from engine 2 to 3 gives `orders__items` the parent `orders`. -/
theorem upgrade_2_to_3_parent_witness :
    ∃ r, upgrade_engine_version docLegacy 2 3 = some r ∧
      ∃ ts3, r.doc.tables = .current ts3 ∧
        ∃ tab, dget ts3 "orders__items" = some tab ∧ tab.parent = some "orders" := by
  obtain ⟨r, hr, he, ts3, hts3, tab, htab, hpar, hcols⟩ :=
    upgrade_2_to_3_parent docLegacy [("orders", []), ("orders__items", [])]
      "orders__items" [] (by decide) (by decide)
  refine ⟨r, hr, ts3, hts3, tab, htab, ?_⟩
  rw [hpar]
  decide

/-! ## C4: where a legacy filter pattern ends up -/

theorem lfind_sep_append (root rest : List Char)
    (h1 : lfindList sepChars root = none)
    (h2 : root.getLast? ≠ some '_') :
    lfindList sepChars (root ++ '_' :: '_' :: rest) = some root.length := by
  induction root with
  | nil =>
    simp [lfindList, sepChars, List.isPrefixOf]
  | cons c root' ih =>
    have hnp2 : sepChars.isPrefixOf (c :: (root' ++ '_' :: '_' :: rest)) = false := by
      cases root' with
      | nil =>
        have hc : c ≠ '_' := by
          intro hcc
          exact h2 (by rw [hcc]; rfl)
        simp only [List.nil_append, sepChars, List.isPrefixOf]
        simp [Ne.symm hc]
      | cons d root'' =>
        have hnp : sepChars.isPrefixOf (c :: d :: root'') = false := by
          cases hF : sepChars.isPrefixOf (c :: d :: root'')
          · rfl
          · exfalso
            rw [lfindList, if_pos hF] at h1
            cases h1
        simp only [List.cons_append, sepChars, List.isPrefixOf] at hnp ⊢
        exact hnp
    have h1' : lfindList sepChars root' = none := by
      rw [lfindList] at h1
      by_cases hF : sepChars.isPrefixOf (c :: root') = true
      · rw [if_pos hF] at h1; cases h1
      · rw [if_neg hF] at h1
        exact Option.map_eq_none'.mp h1
    have h2' : root'.getLast? ≠ some '_' := by
      cases root' with
      | nil => simp
      | cons d root'' =>
        rw [List.getLast?_cons_cons] at h2
        exact h2
    rw [List.cons_append, lfindList, if_neg (by simp [hnp2])]
    rw [ih h1' h2']
    simp

theorem full_pattern_data (root path : String) :
    ("^" ++ root ++ "__" ++ path).data = '^' :: (root.data ++ '_' :: '_' :: path.data) := by
  simp only [String.data_append]
  simp

theorem full_pattern_length (root path : String) :
    ("^" ++ root ++ "__" ++ path).length = root.length + path.length + 3 := by
  simp only [String.length_append]
  rw [show ("^" : String).length = 1 from rfl, show ("__" : String).length = 2 from rfl]
  omega

theorem pyFind_pattern (root path : String)
    (h1 : containsSub root "__" = false)
    (h2 : root.toList.getLast? ≠ some '_') :
    pyFindIdx ("^" ++ root ++ "__" ++ path) "__" = (root.length : Int) + 1 := by
  have h1' : lfindList sepChars root.toList = none := by
    unfold containsSub at h1
    rw [show (("__" : String).toList) = sepChars from rfl] at h1
    exact Option.not_isSome_iff_eq_none.mp (by rw [h1]; exact Bool.false_ne_true)
  unfold pyFindIdx
  rw [show (("__" : String).toList) = sepChars from rfl]
  rw [show ("^" ++ root ++ "__" ++ path).toList
      = '^' :: (root.data ++ '_' :: '_' :: path.data) from full_pattern_data root path]
  have hhead : sepChars.isPrefixOf ('^' :: (root.data ++ '_' :: '_' :: path.data))
      = false := by
    have hne : (('_' : Char) == '^') = false := rfl
    simp [sepChars, List.isPrefixOf, hne]
  rw [lfindList, if_neg (by rw [hhead]; simp)]
  rw [lfind_sep_append root.data path.data h1' h2]
  simp only [Option.map_some']
  have hrl : root.data.length = root.length := rfl
  omega

theorem pySlice_nat (s : String) (a b : Nat) :
    pySlice s (a : Int) (b : Int) = ⟨(s.toList.take (min b s.length)).drop (min a s.length)⟩ := by
  unfold pySlice
  dsimp only
  have ha : ¬ ((a : Int) < 0) := by omega
  have hb : ¬ ((b : Int) < 0) := by omega
  rw [if_neg hb, if_neg ha]
  have h1 : (min (b : Int) ((s.length : Nat) : Int)).toNat = min b s.length := by omega
  have h2 : (min (a : Int) ((s.length : Nat) : Int)).toNat = min a s.length := by omega
  rw [h1, h2]

theorem slice_root (root path : String) :
    pySlice ("^" ++ root ++ "__" ++ path) 1 ((root.length : Int) + 1) = root := by
  rw [show ((root.length : Int) + 1) = (((root.length + 1 : Nat)) : Int) by push_cast; ring,
    show (1 : Int) = ((1 : Nat) : Int) from rfl, pySlice_nat]
  rw [full_pattern_length]
  rw [show ("^" ++ root ++ "__" ++ path).toList
      = '^' :: (root.data ++ '_' :: '_' :: path.data) from full_pattern_data root path]
  have hm1 : min (root.length + 1) (root.length + path.length + 3) = root.length + 1 :=
    Nat.min_eq_left (by omega)
  have hm2 : min 1 (root.length + path.length + 3) = 1 := Nat.min_eq_left (by omega)
  rw [hm1, hm2]
  rw [show root.length + 1 = root.data.length + 1 from rfl, List.take_succ_cons,
    List.take_left]
  rfl

theorem slice_path (root path : String) :
    pySlice ("^" ++ root ++ "__" ++ path) ((root.length : Int) + 3)
      (("^" ++ root ++ "__" ++ path).length : Int) = path := by
  rw [show ((root.length : Int) + 3) = (((root.length + 3 : Nat)) : Int) by push_cast; ring,
    pySlice_nat]
  rw [full_pattern_length]
  rw [show ("^" ++ root ++ "__" ++ path).toList
      = '^' :: (root.data ++ '_' :: '_' :: path.data) from full_pattern_data root path]
  have hm1 : min (root.length + 3) (root.length + path.length + 3) = root.length + 3 :=
    Nat.min_eq_left (by omega)
  rw [Nat.min_self, hm1]
  have hL : ('^' :: (root.data ++ '_' :: '_' :: path.data)).length
      = root.length + path.length + 3 := by
    simp only [List.length_cons, List.length_append, List.length_nil]
    rw [show root.data.length = root.length from rfl,
      show path.data.length = path.length from rfl]
    omega
  rw [← hL, List.take_length]
  have hsplit : '^' :: (root.data ++ '_' :: '_' :: path.data)
      = ('^' :: root.data ++ ['_', '_']) ++ path.data := by
    simp
  have hlen2 : root.length + 3 = ('^' :: root.data ++ ['_', '_']).length := by
    simp only [List.length_cons, List.length_append, List.length_nil]
    rw [show root.data.length = root.length from rfl]
  rw [hsplit, hlen2, List.drop_left]

/-- C4: the 2 -> 3 migration takes a legacy filter pattern `^root__path`
(the root segment containing no `__` and not ending in `_`, so that the
first `__` separates it from the path), strips the `^`, uses the first
`__`-delimited segment as the owning root table, synthesizes an empty root
table when that table is absent, and appends `^path` to the table's
`filters[group]` sequence; tables under other keys are untouched. -/
theorem migrate_filter_pattern (tables : List (String × Table)) (group root path : String)
    (h1 : containsSub root "__" = false)
    (h2 : root.toList.getLast? ≠ some '_') :
    ∃ t2, dget (process_filter tables group ("^" ++ root ++ "__" ++ path)) root = some t2 ∧
      dget (t2.filters.getD []) group =
        some ((dget (((dget tables root).getD (new_table root none)).filters.getD []) group).getD []
          ++ ["^" ++ path]) ∧
      (dget tables root = none →
        t2 = { new_table root none with filters := some [(group, ["^" ++ path])] }) ∧
      (∀ k, k ≠ root →
        dget (process_filter tables group ("^" ++ root ++ "__" ++ path)) k = dget tables k) := by
  have hfind := pyFind_pattern root path h1 h2
  have hroot : pySlice ("^" ++ root ++ "__" ++ path) 1
      (pyFindIdx ("^" ++ root ++ "__" ++ path) "__") = root := by
    rw [hfind]
    exact slice_root root path
  have hpath : pySlice ("^" ++ root ++ "__" ++ path)
      (pyFindIdx ("^" ++ root ++ "__" ++ path) "__" + 2)
      (("^" ++ root ++ "__" ++ path).length : Int) = path := by
    rw [hfind, show (root.length : Int) + 1 + 2 = (root.length : Int) + 3 by ring]
    exact slice_path root path
  have hpf : process_filter tables group ("^" ++ root ++ "__" ++ path) =
      dset tables root (append_group_filter ((dget tables root).getD (new_table root none))
        group ("^" ++ path)) := by
    unfold process_filter
    dsimp only
    rw [hroot, hpath]
  refine ⟨append_group_filter ((dget tables root).getD (new_table root none))
    group ("^" ++ path), ?_, ?_, ?_, ?_⟩
  · rw [hpf, dget_dset_self]
  · unfold append_group_filter
    dsimp only
    rw [Option.getD_some, dget_dset_self]
  · intro hnone
    rw [hnone]
    rfl
  · intro k hk
    rw [hpf, dget_dset_ne _ _ _ _ hk]

/-- C4 witness: the legacy exclude filter `^orders__items__price` ends up
as `^items__price` in `filters["excludes"]` of the table `orders`. -/
theorem migrate_filter_pattern_witness :
    ∃ t2, dget (process_filter [("orders", new_table "orders" none)] "excludes"
        ("^" ++ "orders" ++ "__" ++ "items__price")) "orders" = some t2 ∧
      dget (t2.filters.getD []) "excludes" = some ["^" ++ "items__price"] := by
  obtain ⟨t2, ha, hb, _, _⟩ := migrate_filter_pattern
    [("orders", new_table "orders" none)] "excludes" "orders" "items__price"
    (by decide) (by decide)
  refine ⟨t2, ha, ?_⟩
  rw [hb]
  decide

end DltSchema
